import Mathlib

/-!
Shallow embedding of `src/orm/hasura.js` (the `Hasura` ORM facade):
catalog management (`createTable`, `table`), document composition
(`buildQuery`, `buildMutation`), execution with flattening (`query`),
mutation response remapping (`mutate`) and subscriptions (`subscribe`).

JavaScript objects are modelled as insertion-ordered association lists,
thrown exceptions as `Except`, and the external transports (`$gql.run`,
`$ws.run`) as function parameters returning `(error, response)` pairs.
The per-table operation builder (`orm/table.js`) and the helper
`__.objectFromPath` (`utils/helpers.js`) are not part of the sources;
composition-level definitions take the builder as a parameter, and the
places that need a concrete builder model one from the specification
(marked `Modelled from the spec`).
-/

namespace HasuraOm

/-- JavaScript runtime values as needed by the ORM layer; objects are
insertion-ordered association lists from property name to value. -/
inductive JsValue where
  | vUndefined : JsValue
  | vNull : JsValue
  | vBool : Bool → JsValue
  | vNum : Int → JsValue
  | vStr : String → JsValue
  | vArr : List JsValue → JsValue
  | vObj : List (String × JsValue) → JsValue

/-- Errors raised or returned by the JavaScript code: `new Error(msg)` or a
runtime `TypeError` (e.g. property access on `undefined`). -/
inductive JsError where
  | error : String → JsError
  | typeError : String → JsError
deriving DecidableEq

/-- Property read on an insertion-ordered association list: `none` when the
key is absent. -/
def assocGet? {α : Type} : List (String × α) → String → Option α
  | [], _ => none
  | (k, v) :: rest, key => if k = key then some v else assocGet? rest key

/-- Property write `o[k] = v` on a JavaScript object: an existing key keeps
its position and receives the new value, a fresh key is appended at the
end (JavaScript property insertion order). -/
def assocSet {α : Type} : List (String × α) → String → α → List (String × α)
  | [], key, v => [(key, v)]
  | (k, w) :: rest, key, v =>
    if k = key then (key, v) :: rest else (k, w) :: assocSet rest key v

/-- Values of a JavaScript object in property insertion order
(`Object.values`). -/
def assocValues {α : Type} (l : List (String × α)) : List α :=
  l.map Prod.snd

/-- Keys of a JavaScript object in property insertion order
(`Object.keys`). -/
def assocKeys {α : Type} (l : List (String × α)) : List String :=
  l.map Prod.fst

/-- Sequence of property writes (the loop body of `Object.assign` for one
source object): each entry of `l` is written into `m` left to right. -/
def assignList {α : Type} (m : List (String × α)) (l : List (String × α)) :
    List (String × α) :=
  l.foldl (fun m2 kv => assocSet m2 kv.1 kv.2) m

/-- Object property read defaulting to `undefined`, as JavaScript does for
an absent property of an object. -/
def objGet (fs : List (String × JsValue)) (k : String) : JsValue :=
  (assocGet? fs k).getD .vUndefined

/-- Canonical decimal array index: `some i` exactly when the string is the
canonical decimal numeral of `i` (JavaScript array element access treats
only such property names as indices). -/
def parseIndex? (s : String) : Option Nat :=
  match s.data with
  | [] => none
  | ['0'] => some 0
  | c :: rest =>
    if c = '0' ∨ ¬ (c :: rest).all Char.isDigit then none
    else some ((c :: rest).foldl (fun n d => n * 10 + (d.toNat - 48)) 0)

/-- JavaScript property access `base[k]`: reading from `undefined` or `null`
throws a `TypeError`; an object returns the stored value or `undefined`;
an array supports canonical numeric indices; other primitives yield
`undefined` for the property names occurring here. -/
def jsGet : JsValue → String → Except JsError JsValue
  | .vUndefined, k =>
    .error (.typeError ("Cannot read properties of undefined (reading " ++ k ++ ")"))
  | .vNull, k =>
    .error (.typeError ("Cannot read properties of null (reading " ++ k ++ ")"))
  | .vObj fs, k => .ok (objGet fs k)
  | .vArr xs, k =>
    .ok (match parseIndex? k with
      | some i => xs.getD i .vUndefined
      | none => .vUndefined)
  | _, _ => .ok .vUndefined

/-- Splitter over a character list with an accumulator for the current
segment (in reverse); underlies the model of JavaScript `split`. -/
def splitChar (c : Char) : List Char → List Char → List (List Char)
  | acc, [] => [acc.reverse]
  | acc, ch :: rest =>
    if ch = c then acc.reverse :: splitChar c [] rest
    else splitChar c (ch :: acc) rest

/-- Model of JavaScript `s.split(c)` for a one-character separator: the
list of separated segments, never empty. -/
def jsSplit (s : String) (c : Char) : List String :=
  (splitChar c [] s.data).map (fun l => String.mk l)

/-- Left-to-right walk of a dot-path through a response value, the
embedding of `path.split('.').reduce((o, i) => o[i], response)`. -/
def walkPath : List String → JsValue → Except JsError JsValue
  | [], v => .ok v
  | s :: rest, v =>
    match jsGet v s with
    | .error e => .error e
    | .ok v2 => walkPath rest v2

/-- Column metadata stored for a table field (`setField` row: data type and
underlying udt name). -/
structure JsField where
  ftype : String
  udt : String
deriving DecidableEq

/-- Modelled from the spec: the `Table` class (`orm/table.js`, not under
src/). Per §3 a fresh Table holds the constructor's name and type and
empty field/primary-key collections; fields and primary-key entries are
added incrementally. The JavaScript `type` property is called `ttype`
because `type` is reserved here. -/
structure Table where
  name : String
  ttype : String
  fields : List (String × JsField)
  primaryKeys : List (String × Int)
deriving DecidableEq

/-- State of the `Hasura` facade relevant to the compiler: the catalog
`this.tables`, a JavaScript object from table name to `Table`. -/
structure Hasura where
  tables : List (String × Table)

/-- Catalog lookup `table(name)`: throws `new Error` with the message
`table NAME not found` when the name is absent. -/
def table (h : Hasura) (name : String) : Except JsError Table :=
  match assocGet? h.tables name with
  | none => .error (.error ("table " ++ name ++ " not found"))
  | some t => .ok t

/-- Catalog registration `createTable({name, type})`: unconditionally
assigns a freshly constructed `Table` into `this.tables[name]`. -/
def createTable (h : Hasura) (name : String) (ttype : String) : Hasura :=
  { tables := assocSet h.tables name ⟨name, ttype, [], []⟩ }

/-- Modelled from the spec: `setField` of the `Table` class
(`orm/table.js`, not under src/), reached through the catalog per §4.1 —
it stores the column in the named table's field map and fails with the
catalog's `NotFound` error when the table is unknown. -/
def setField (h : Hasura) (tableName fname : String) (f : JsField) :
    Except JsError Hasura :=
  match table h tableName with
  | .error e => .error e
  | .ok t =>
    .ok { tables := assocSet h.tables tableName { t with fields := assocSet t.fields fname f } }

/-- Named selection-set fragment produced by a per-table build. -/
structure FragmentDef where
  fragmentName : String
  fragment : String

/-- Query part of a per-table build result (`built.query`). -/
structure BuiltQuery where
  name : String
  varDecls : List String
  fields : String
  fragment : FragmentDef

/-- Per-table build result for queries/subscriptions (`Table.buildQuery`
return value): document pieces plus runtime variable bindings. -/
structure TableBuild where
  query : BuiltQuery
  varValues : List (String × JsValue)

/-- Abstract per-table query builder: `Table.buildQuery` lives in
`orm/table.js` (not under src/), so composition is parameterized by it;
arguments are the table object, the caller's per-table params and the
query type string. -/
abbrev Builder := Table → JsValue → String → TableBuild

/-- Caller params object: table name to per-table request spec, in caller
insertion order (`Object.keys` order). -/
abbrev Params := List (String × JsValue)

/-- Runtime variable bindings accompanying a document. -/
abbrev Vars := List (String × JsValue)

/-- Accumulators of `buildQuery`: the arrays `queryName`, `queryVariables`,
`queryFields`, the object `queryFragments` and the merged `variables`. -/
structure QAcc where
  names : List String
  varDecls : List String
  fields : List String
  fragments : List (String × String)
  varValues : List (String × JsValue)

/-- Initial accumulator state of `buildQuery`. -/
def emptyQAcc : QAcc := ⟨[], [], [], [], []⟩

/-- Body of the `tables.forEach` loop in `buildQuery` for one built table:
push name, variables and fields, write the fragment under its name,
`Object.assign` the bindings. -/
def stepQuery (acc : QAcc) (built : TableBuild) : QAcc :=
  { names := acc.names ++ [built.query.name]
    varDecls := acc.varDecls ++ built.query.varDecls
    fields := acc.fields ++ [built.query.fields]
    fragments := assocSet acc.fragments built.query.fragment.fragmentName built.query.fragment.fragment
    varValues := assignList acc.varValues built.varValues }

/-- The `tables.forEach` loop of `buildQuery`: looks each table up in the
catalog (throwing on a miss) and folds `stepQuery` over the caller's
tables in order. -/
def collectQueryAux (h : Hasura) (b : Builder) (qt : String) :
    QAcc → Params → Except JsError QAcc
  | acc, [] => .ok acc
  | acc, x :: rest =>
    match table h x.1 with
    | .error e => .error e
    | .ok t => collectQueryAux h b qt (stepQuery acc (b t x.2 qt)) rest

/-- Accumulation phase of `buildQuery` from the empty state. -/
def collectQuery (h : Hasura) (b : Builder) (qt : String) (params : Params) :
    Except JsError QAcc :=
  collectQueryAux h b qt emptyQAcc params

/-- Parameter-list segment of the query template: the ternary
`queryVariables.length ? '(' + queryVariables.join(', ') + ')' : ''`. -/
def queryVarsSegment (ds : List String) : String :=
  if ds.isEmpty then "" else "(" ++ String.intercalate ", " ds ++ ")"

/-- Document template of `buildQuery`, whitespace as in the source
template literal. -/
def renderQuery (qt : String) (acc : QAcc) : String :=
  "\n            " ++ String.intercalate "\n" (assocValues acc.fragments)
    ++ "\n            " ++ qt ++ " " ++ String.intercalate "_" acc.names ++ " "
    ++ queryVarsSegment acc.varDecls
    ++ " \x7b\n                " ++ String.intercalate "\n" acc.fields
    ++ "\n            \x7d\n        "

/-- The whole `buildQuery(params, queryType)`: accumulate per-table builds
then render the document; returns `[query, variables]`. -/
def buildQuery (h : Hasura) (b : Builder) (qt : String) (params : Params) :
    Except JsError (String × Vars) :=
  (collectQuery h b qt params).map (fun acc => (renderQuery qt acc, acc.varValues))

/-- Outcome of an async facade method: an exception escaping the method
(rejected promise), an `[err]` error result, or a `[null, value]` success
result. -/
inductive CallOutcome where
  | thrown : JsError → CallOutcome
  | errResult : JsError → CallOutcome
  | okResult : JsValue → CallOutcome

/-- Whether an outcome is an `[err]` error result. -/
def CallOutcome.isErrResult : CallOutcome → Bool
  | .errResult _ => true
  | _ => false

/-- Whether an outcome is an exception escaping the method. -/
def CallOutcome.isThrown : CallOutcome → Bool
  | .thrown _ => true
  | _ => false

/-- Execution transport `$gql.run({query, variables})`, abstract: returns
`(error, response)`. -/
abbrev Transport := String → Vars → Except JsError JsValue

/-- Tail of `query` after a successful transport call: flatten to the only
table's value when the params object has exactly one key and `flatOne`
holds, otherwise return the whole response. -/
def flattenQuery (params : Params) (flatOne : Bool) (resp : JsValue) : CallOutcome :=
  match params, flatOne with
  | [(k, _)], true =>
    match jsGet resp k with
    | .error e => .thrown e
    | .ok v => .okResult v
  | _, _ => .okResult resp

/-- The facade method `query(params, {flatOne})`: compile (errors caught
and returned as `[err]`), run the transport, flatten. The boolean records
whether the transport was invoked. -/
def query (h : Hasura) (b : Builder) (params : Params) (flatOne : Bool) (tr : Transport) :
    CallOutcome × Bool :=
  match buildQuery h b "query" params with
  | .error e => (.errResult e, false)
  | .ok (q, vars) =>
    match tr q vars with
    | .error e => (.errResult e, true)
    | .ok resp => (flattenQuery params flatOne resp, true)

/-- Query part of one mutation build (`built.query`), including the
one-entry flat-settings object recorded as a caller-path/endpoint-path
pair. -/
structure BuiltMutation where
  name : String
  varDecls : List String
  fields : String
  fragment : FragmentDef
  flatSetting : String × String

/-- One per-table mutation build result; `Table.buildMutation` returns a
list of these (one per present sub-operation). -/
structure MutBuild where
  query : BuiltMutation
  varValues : List (String × JsValue)

/-- Abstract per-table mutation builder (`Table.buildMutation`, not under
src/). -/
abbrev MutBuilder := Table → JsValue → List MutBuild

/-- Accumulators of `buildMutation`, with the extra `queryFlatSetting`
array. -/
structure MAcc where
  names : List String
  varDecls : List String
  fields : List String
  fragments : List (String × String)
  flatSettings : List (String × String)
  varValues : List (String × JsValue)

/-- Initial accumulator state of `buildMutation`. -/
def emptyMAcc : MAcc := ⟨[], [], [], [], [], []⟩

/-- Body of the inner `builts.forEach` loop of `buildMutation` for one
build. -/
def stepMutation (acc : MAcc) (built : MutBuild) : MAcc :=
  { names := acc.names ++ [built.query.name]
    varDecls := acc.varDecls ++ built.query.varDecls
    fields := acc.fields ++ [built.query.fields]
    fragments := assocSet acc.fragments built.query.fragment.fragmentName built.query.fragment.fragment
    flatSettings := acc.flatSettings ++ [built.query.flatSetting]
    varValues := assignList acc.varValues built.varValues }

/-- The `tables.forEach` loop of `buildMutation`: note the source reads
`this.tables[tableName]` directly (no `table()` guard), so an unknown
table surfaces as a `TypeError` on the `undefined` member access. -/
def collectMutationAux (h : Hasura) (bm : MutBuilder) :
    MAcc → Params → Except JsError MAcc
  | acc, [] => .ok acc
  | acc, x :: rest =>
    match assocGet? h.tables x.1 with
    | none => .error (.typeError "Cannot read properties of undefined (reading buildMutation)")
    | some t => collectMutationAux h bm ((bm t x.2).foldl stepMutation acc) rest

/-- Accumulation phase of `buildMutation` from the empty state. -/
def collectMutation (h : Hasura) (bm : MutBuilder) (params : Params) :
    Except JsError MAcc :=
  collectMutationAux h bm emptyMAcc params

/-- Parameter-list segment of the mutation template: always parenthesized,
`(${queryVariables.join(', ')})`. -/
def mutationVarsSegment (ds : List String) : String :=
  "(" ++ String.intercalate ", " ds ++ ")"

/-- Document template of `buildMutation`, whitespace as in the source
template literal. -/
def renderMutation (acc : MAcc) : String :=
  "\n            " ++ String.intercalate "\n" (assocValues acc.fragments)
    ++ "\n            mutation " ++ String.intercalate "_" acc.names ++ " "
    ++ mutationVarsSegment acc.varDecls
    ++ " \x7b\n                " ++ String.intercalate "\n" acc.fields
    ++ "\n            \x7d\n        "

/-- The whole `buildMutation(params)`: returns
`[query, variables, flatSettings]`. -/
def buildMutation (h : Hasura) (bm : MutBuilder) (params : Params) :
    Except JsError (String × Vars × List (String × String)) :=
  (collectMutation h bm params).map
    (fun acc => (renderMutation acc, acc.varValues, acc.flatSettings))

/-- Modelled from the spec: the helper `__.objectFromPath`
(`utils/helpers.js`, not under src/). Per §4.5 it writes `v` into `obj`
at the dot-path `segs`, creating intermediate nested containers as
needed. -/
def objectFromPath (obj : List (String × JsValue)) (segs : List String) (v : JsValue) :
    List (String × JsValue) :=
  match segs with
  | [] => obj
  | [s] => assocSet obj s v
  | s :: rest =>
    let child :=
      match objGet obj s with
      | .vObj fs => fs
      | _ => []
    assocSet obj s (.vObj (objectFromPath child rest v))

/-- The `flatSettings.forEach` loop of `mutate`: resolve each endpoint
path through the response (any failed property access propagates as a
thrown `TypeError`) and write the value into the result object at the
caller path. -/
def remapAux (resp : JsValue) :
    List (String × JsValue) → List (String × String) → Except JsError (List (String × JsValue))
  | acc, [] => .ok acc
  | acc, fl :: rest =>
    match walkPath (jsSplit fl.2 '.') resp with
    | .error e => .error e
    | .ok v => remapAux resp (objectFromPath acc (jsSplit fl.1 '.') v) rest

/-- Response remapping step of `mutate`: builds `toReturn` from an empty
object. -/
def remap (flatSettings : List (String × String)) (resp : JsValue) :
    Except JsError JsValue :=
  (remapAux resp [] flatSettings).map JsValue.vObj

/-- The facade method `mutate(params)`: only the compile step is inside
`try/catch`; transport errors come back as `[err]`; the remapping loop
runs unguarded, so a failure there escapes the method as a thrown
exception. The boolean records whether the transport was invoked. -/
def mutate (h : Hasura) (bm : MutBuilder) (params : Params) (tr : Transport) :
    CallOutcome × Bool :=
  match buildMutation h bm params with
  | .error e => (.errResult e, false)
  | .ok (q, vars, fs) =>
    match tr q vars with
    | .error e => (.errResult e, true)
    | .ok resp =>
      match remap fs resp with
      | .error e => (.thrown e, true)
      | .ok v => (.okResult v, true)

/-- Return value of `subscribe`: either the one-element array `[err]`
produced on a compile failure, or the unsubscribe handle returned by the
live transport. -/
inductive SubResult (U : Type) where
  | errArray : List JsError → SubResult U
  | handle : U → SubResult U

/-- The `settings.flatOne` value passed to the live transport: the single
table key when the params object has exactly one key and `flatOne` holds,
otherwise `false` (modelled as `none`). -/
def flatSel (params : Params) (flatOne : Bool) : Option String :=
  match params, flatOne with
  | [(k, _)], true => some k
  | _, _ => none

/-- The facade method `subscribe(params, callback, {flatOne})`: compile as
a subscription document (errors caught and returned as `[err]`), else
return the handle produced by `$ws.run`, which receives the document, the
bindings and the flattening selector. -/
def subscribe {U : Type} (h : Hasura) (b : Builder) (params : Params) (flatOne : Bool)
    (wsRun : String → Vars → Option String → U) : SubResult U :=
  match buildQuery h b "subscription" params with
  | .error e => .errArray [e]
  | .ok (q, vars) => .handle (wsRun q vars (flatSel params flatOne))

/-- Table stored in the catalog under key `k`, defaulting to a dummy when
absent (used to express the successful-lookup case). -/
def tblOf (h : Hasura) (k : String) : Table :=
  (assocGet? h.tables k).getD ⟨"", "", [], []⟩

/-- Build contributed by one entry of the caller params during
`buildQuery`. -/
def qContrib (h : Hasura) (b : Builder) (qt : String) (x : String × JsValue) : TableBuild :=
  b (tblOf h x.1) x.2 qt

/-- Fragment-object entry contributed by one caller entry during
`buildQuery`. -/
def qFragPair (h : Hasura) (b : Builder) (qt : String) (x : String × JsValue) : String × String :=
  ((qContrib h b qt x).query.fragment.fragmentName, (qContrib h b qt x).query.fragment.fragment)

/-- Builds contributed by one entry of the caller params during
`buildMutation` (one per present sub-operation). -/
def mContribs (h : Hasura) (bm : MutBuilder) (x : String × JsValue) : List MutBuild :=
  bm (tblOf h x.1) x.2

/-- Fragment-object entry of one mutation build. -/
def mFragPair (bu : MutBuild) : String × String :=
  (bu.query.fragment.fragmentName, bu.query.fragment.fragment)

/-- First-defined choice on options (JavaScript-style overwrite
resolution: a later property write wins, so reading folds from the
right). -/
def optOr {α : Type} : Option α → Option α → Option α
  | some v, _ => some v
  | none, b => b

/-- Value left at key `k` by the last entry of `l` with that key, if
any. -/
def lastLookup {α : Type} : List (String × α) → String → Option α
  | [], _ => none
  | kv :: rest, k => optOr (lastLookup rest k) (if kv.1 = k then some kv.2 else none)

/-- Empty catalog. -/
def emptyH : Hasura := ⟨[]⟩

/-- Catalog holding one base table `user`. -/
def hUser : Hasura := createTable emptyH "user" "BASE TABLE"

/-- Catalog holding two base tables `a` and `b`. -/
def hAB : Hasura := createTable (createTable emptyH "a" "BASE TABLE") "b" "BASE TABLE"

/-- Example per-table query builder contributing no variables and a
fragment named after the table. -/
def simpleBuild : Builder := fun t _ _ =>
  { query := { name := t.name
               varDecls := []
               fields := t.name ++ " selection"
               fragment := { fragmentName := t.name ++ "_frag"
                             fragment := "fragment body for " ++ t.name } }
    varValues := [] }

/-- Example per-table query builder in which every table contributes a
fragment under the same name `F` but with table-specific text. -/
def sharedFragBuild : Builder := fun t _ _ =>
  { query := { name := t.name
               varDecls := []
               fields := t.name ++ " selection"
               fragment := { fragmentName := "F", fragment := "frag_" ++ t.name } }
    varValues := [] }

/-- Example per-table mutation builder contributing one insert build whose
flat-settings entry maps caller path `TABLE.insert` to endpoint path
`insert_TABLE.returning`. -/
def mbInsert : MutBuilder := fun t _ =>
  [{ query := { name := "insert_" ++ t.name
                varDecls := []
                fields := "insert_" ++ t.name ++ " returning"
                fragment := { fragmentName := t.name ++ "_frag"
                              fragment := "fragment body for " ++ t.name }
                flatSetting := (t.name ++ ".insert", "insert_" ++ t.name ++ ".returning") }
     varValues := [] }]

/-- Raw transport response of the worked mutation example:
`{insert_user: {returning: [{id: 1}]}}`. -/
def respC3 : JsValue :=
  .vObj [("insert_user", .vObj [("returning", .vArr [.vObj [("id", .vNum 1)]])])]

/-- Transport answering the worked mutation example response. -/
def trC3 : Transport := fun _ _ => .ok respC3

/-- Transport answering an empty object `{}`. -/
def trEmptyObj : Transport := fun _ _ => .ok (.vObj [])

/-- Response fields of the worked single-table query example. -/
def c1resp : List (String × JsValue) := [("user", .vArr [.vObj [("id", .vNum 1)]])]

/-- Transport answering the worked single-table query example response. -/
def trC1 : Transport := fun _ _ => .ok (.vObj c1resp)

/-- Compiled document and bindings of the worked single-table query
example. -/
def bqUser : String × Vars :=
  match buildQuery hUser simpleBuild "query" [("user", .vNull)] with
  | .ok p => p
  | .error _ => ("", [])

/-- Catalog after registering `user` once. -/
def hC8a : Hasura := createTable emptyH "user" "BASE TABLE"

/-- Catalog after additionally recording the introspected column `id` on
`user`. -/
def hC8b : Hasura :=
  match setField hC8a "user" "id" ⟨"integer", "int4"⟩ with
  | .ok h2 => h2
  | .error _ => hC8a

/-- Catalog after registering the name `user` a second time. -/
def hC8c : Hasura := createTable hC8b "user" "BASE TABLE"

/-- Live transport stub returning a numeric handle. -/
def wsRunNat : String → Vars → Option String → Nat := fun _ _ _ => 7

/-- Strings free of a separator character, the side condition of the
modelled collision-avoidance naming rule. -/
abbrev sepFree (c : Char) (s : String) : Prop := c ∉ s.data

/-- Separator-joined name `TABLE.SLOT` of the modelled naming rule. -/
def dotKey (tname slot : String) : String := tname ++ "." ++ slot

/-- Argument slots of a read request (§4.2 of the spec). -/
def argSlots : List String := ["where", "order_by", "limit", "offset", "distinct_on"]

/-- Fixed variable type per argument slot (§4.2: variable typing is fixed
per argument name, not inferred from the value). -/
def slotType (s : String) : String :=
  if s = "limit" ∨ s = "offset" then "Int"
  else if s = "where" then "bool_exp"
  else "misc"

/-- Whether a request object carries a property. -/
def hasKey (p : JsValue) (k : String) : Bool :=
  match p with
  | .vObj fs => (assocGet? fs k).isSome
  | _ => false

/-- Value of a property of a request object (`undefined` when absent or
when the request is not an object). -/
def slotVal (p : JsValue) (k : String) : JsValue :=
  match p with
  | .vObj fs => objGet fs k
  | _ => .vUndefined

/-- Variable declaration string for one slot of one table in the modelled
query builder. -/
def qDecl (tname s : String) : String := "$" ++ dotKey tname s ++ ": " ++ slotType s

/-- Modelled from the spec: the per-table query builder of `orm/table.js`
(not under src/). Per §4.2 each supplied optional argument gets its own
freshly named variable and omitted arguments contribute nothing; per the
§3 invariant and the §9 design note, naming is a pure function of the
table name with a deterministic collision-avoidance rule, modelled here
by the `.`-separator convention of `dotKey` (table names contain no
`.`). -/
def specBuild : Builder := fun t p _ =>
  { query := { name := t.name
               varDecls := (argSlots.filter (hasKey p)).map (qDecl t.name)
               fields := t.name ++ " selection"
               fragment := { fragmentName := dotKey t.name "base"
                             fragment := "fields of " ++ t.name } }
    varValues := (argSlots.filter (hasKey p)).map (fun s => (dotKey t.name s, slotVal p s)) }

/-- Sub-operation actions of a mutation request (§4.2 of the spec). -/
def mutActions : List String := ["insert", "update", "delete"]

/-- Argument slots of one mutation sub-operation (§4.2 of the spec). -/
def actionSlots (act : String) : List String :=
  if act = "insert" then ["objects"]
  else if act = "update" then ["where", "_set", "_inc"]
  else ["where"]

/-- Variable name `TABLE.ACTION.SLOT` of the modelled mutation naming
rule. -/
def mutKey (tname act s : String) : String := dotKey tname (dotKey act s)

/-- Variable declaration string for one mutation variable in the modelled
mutation builder. -/
def mDecl (tname act s : String) : String := "$" ++ mutKey tname act s ++ ": " ++ slotType s

/-- Modelled from the spec: the per-table mutation builder of
`orm/table.js` (not under src/). Per §4.2 each present sub-operation
yields one independent build with an action-specific root name, a
`returning` selection and the flat-settings entry
`(TABLE.ACTION, ACTION_TABLE.returning)`; variables are namespaced by
table and action through `mutKey`, the same `.`-separator
collision-avoidance rule as `specBuild`. -/
def specBuildMutation : MutBuilder := fun t p =>
  (mutActions.filter (hasKey p)).map (fun act =>
    { query := { name := act ++ "_" ++ t.name
                 varDecls := (actionSlots act).map (mDecl t.name act)
                 fields := act ++ "_" ++ t.name ++ " returning"
                 fragment := { fragmentName := dotKey t.name act
                               fragment := "fields of " ++ t.name }
                 flatSetting := (t.name ++ "." ++ act, act ++ "_" ++ t.name ++ ".returning") }
      varValues := (actionSlots act).map
        (fun s => (mutKey t.name act s, slotVal (slotVal p act) s)) })

/-- Compiled document, bindings and flat settings of the worked mutation
example. -/
def bmUser : String × Vars × List (String × String) :=
  match buildMutation hUser mbInsert [("user", .vNull)] with
  | .ok p => p
  | .error _ => ("", [], [])

/-- Compiled subscription document and bindings of the worked single-table
example. -/
def bqUserSub : String × Vars :=
  match buildQuery hUser simpleBuild "subscription" [("user", .vNull)] with
  | .ok p => p
  | .error _ => ("", [])

/-- Accumulator of the worked two-table query example. -/
def accAB : QAcc :=
  match collectQuery hAB simpleBuild "query" [("a", .vNull), ("b", .vNull)] with
  | .ok acc => acc
  | .error _ => emptyQAcc

/-- Accumulator of the worked one-table mutation example. -/
def maccA : MAcc :=
  match collectMutation hAB mbInsert [("a", .vNull)] with
  | .ok macc => macc
  | .error _ => emptyMAcc

/-- Worked query params exercising the modelled builder's variables. -/
def qParamsW : Params :=
  [("a", .vObj [("where", .vNull), ("limit", .vNum 5)]), ("b", .vObj [("limit", .vNum 3)])]

/-- Worked mutation params exercising the modelled builder's
sub-operations. -/
def mParamsW : Params :=
  [("a", .vObj [("insert", .vObj []), ("update", .vObj [])]), ("b", .vObj [("delete", .vObj [])])]

theorem assocGet?_set_self {α : Type} (l : List (String × α)) (k : String) (v : α) :
    assocGet? (assocSet l k v) k = some v := by
  induction l with
  | nil => simp [assocSet, assocGet?]
  | cons kv rest ih =>
    obtain ⟨k0, w⟩ := kv
    by_cases hk : k0 = k
    · subst hk
      simp [assocSet, assocGet?]
    · simp [assocSet, assocGet?, hk, ih]

theorem assocGet?_set_ne {α : Type} (l : List (String × α)) (k k' : String) (v : α)
    (h : k ≠ k') : assocGet? (assocSet l k v) k' = assocGet? l k' := by
  induction l with
  | nil => simp [assocSet, assocGet?, h]
  | cons kv rest ih =>
    obtain ⟨k0, w⟩ := kv
    by_cases hk : k0 = k
    · subst hk
      simp [assocSet, assocGet?, h]
    · simp [assocSet, assocGet?, hk, ih]

theorem optOr_none_right {α : Type} (a : Option α) : optOr a none = a := by
  cases a <;> rfl

theorem optOr_assoc {α : Type} (a b c : Option α) :
    optOr (optOr a b) c = optOr a (optOr b c) := by
  cases a <;> rfl

theorem assignList_cons {α : Type} (m : List (String × α)) (kv : String × α)
    (l : List (String × α)) :
    assignList m (kv :: l) = assignList (assocSet m kv.1 kv.2) l := rfl

theorem assignList_append {α : Type} (m l1 l2 : List (String × α)) :
    assignList m (l1 ++ l2) = assignList (assignList m l1) l2 := by
  simp [assignList, List.foldl_append]

theorem assocGet?_assignList {α : Type} (l : List (String × α)) (m : List (String × α))
    (k : String) :
    assocGet? (assignList m l) k = optOr (lastLookup l k) (assocGet? m k) := by
  induction l generalizing m with
  | nil => rfl
  | cons kv rest ih =>
    rw [assignList_cons, ih, lastLookup, optOr_assoc]
    by_cases hk : kv.1 = k
    · subst hk
      rw [assocGet?_set_self]
      cases lastLookup rest kv.1 <;> simp [optOr]
    · rw [assocGet?_set_ne _ _ _ _ hk]
      simp [hk, optOr]

theorem lastLookup_eq_none {α : Type} (l : List (String × α)) (k : String)
    (h : k ∉ assocKeys l) : lastLookup l k = none := by
  induction l with
  | nil => rfl
  | cons kv rest ih =>
    have h' : ¬ (k = kv.1 ∨ k ∈ assocKeys rest) := by
      simpa [assocKeys] using h
    push_neg at h'
    rw [lastLookup, ih h'.2, if_neg (fun he => h'.1 he.symm)]
    rfl

theorem lastLookup_of_nodup {α : Type} (l : List (String × α)) (k : String) (v : α)
    (hn : (assocKeys l).Nodup) (hm : (k, v) ∈ l) : lastLookup l k = some v := by
  induction l with
  | nil => cases hm
  | cons kv rest ih =>
    have hn2 : (assocKeys rest).Nodup := (List.nodup_cons.mp hn).2
    rcases List.mem_cons.mp hm with heq | hmem
    · have hk : kv.1 = k := by rw [← heq]
      have hnm : kv.1 ∉ assocKeys rest := (List.nodup_cons.mp hn).1
      rw [lastLookup, lastLookup_eq_none rest k (hk ▸ hnm), if_pos hk]
      rw [← heq]
      rfl
    · have hkmem : k ∈ assocKeys rest := by
        have := List.mem_map_of_mem Prod.fst hmem
        simpa [assocKeys] using this
      have hk : kv.1 ≠ k := by
        intro he
        exact (List.nodup_cons.mp hn).1 (he ▸ hkmem)
      rw [lastLookup, ih hn2 hmem, if_neg hk]
      rfl

theorem table_eq_ok {h : Hasura} {k : String} (hs : (assocGet? h.tables k).isSome) :
    table h k = .ok (tblOf h k) := by
  unfold table tblOf
  cases hx : assocGet? h.tables k with
  | none => rw [hx] at hs; cases hs
  | some t => simp

theorem collectQueryAux_ok (h : Hasura) (b : Builder) (qt : String) (params : Params) :
    ∀ (acc : QAcc), (∀ x ∈ params, (assocGet? h.tables x.1).isSome) →
      collectQueryAux h b qt acc params = .ok
        { names := acc.names ++ params.map (fun x => (qContrib h b qt x).query.name)
          varDecls := acc.varDecls ++ params.flatMap (fun x => (qContrib h b qt x).query.varDecls)
          fields := acc.fields ++ params.map (fun x => (qContrib h b qt x).query.fields)
          fragments := assignList acc.fragments (params.map (qFragPair h b qt))
          varValues := assignList acc.varValues (params.flatMap (fun x => (qContrib h b qt x).varValues)) } := by
  induction params with
  | nil =>
    intro acc _
    simp [collectQueryAux, assignList]
  | cons x rest ih =>
    intro acc hall
    have hx : (assocGet? h.tables x.1).isSome := hall x (by simp)
    rw [collectQueryAux, table_eq_ok hx]
    dsimp only
    rw [ih (stepQuery acc (b (tblOf h x.1) x.2 qt)) (fun y hy => hall y (by simp [hy]))]
    simp only [stepQuery, qContrib, qFragPair, List.map_cons, List.flatMap_cons,
      assignList_cons, assignList_append, List.append_assoc, List.singleton_append,
      Except.ok.injEq]

theorem collectQueryAux_err (h : Hasura) (b : Builder) (qt : String) (params : Params) :
    ∀ (acc : QAcc), (∃ x ∈ params, assocGet? h.tables x.1 = none) →
      ∃ name, assocGet? h.tables name = none ∧ (∃ p, (name, p) ∈ params) ∧
        collectQueryAux h b qt acc params = .error (.error ("table " ++ name ++ " not found")) := by
  induction params with
  | nil =>
    rintro acc ⟨x, hx, _⟩
    cases hx
  | cons x rest ih =>
    intro acc hex
    by_cases hx : assocGet? h.tables x.1 = none
    · refine ⟨x.1, hx, ⟨x.2, by simp⟩, ?_⟩
      rw [collectQueryAux]
      simp [table, hx]
    · have hs : (assocGet? h.tables x.1).isSome := by
        cases he : assocGet? h.tables x.1 with
        | none => exact absurd he hx
        | some t => rfl
      obtain ⟨y, hy, hn⟩ := hex
      rcases List.mem_cons.mp hy with heq | hmem
      · rw [heq] at hn
        exact absurd hn hx
      · obtain ⟨nm, h1, ⟨p, h2⟩, h3⟩ :=
          ih (stepQuery acc (b (tblOf h x.1) x.2 qt)) ⟨y, hmem, hn⟩
        refine ⟨nm, h1, ⟨p, List.mem_cons_of_mem x h2⟩, ?_⟩
        rw [collectQueryAux, table_eq_ok hs]
        exact h3

theorem foldl_stepMutation (builds : List MutBuild) :
    ∀ (acc : MAcc), builds.foldl stepMutation acc =
      { names := acc.names ++ builds.map (fun bu => bu.query.name)
        varDecls := acc.varDecls ++ builds.flatMap (fun bu => bu.query.varDecls)
        fields := acc.fields ++ builds.map (fun bu => bu.query.fields)
        fragments := assignList acc.fragments (builds.map mFragPair)
        flatSettings := acc.flatSettings ++ builds.map (fun bu => bu.query.flatSetting)
        varValues := assignList acc.varValues (builds.flatMap (fun bu => bu.varValues)) } := by
  induction builds with
  | nil =>
    intro acc
    simp [assignList]
  | cons bu rest ih =>
    intro acc
    rw [List.foldl_cons, ih (stepMutation acc bu)]
    simp only [stepMutation, mFragPair, List.map_cons, List.flatMap_cons,
      assignList_cons, assignList_append, List.append_assoc, List.singleton_append]

theorem collectMutationAux_ok (h : Hasura) (bm : MutBuilder) (params : Params) :
    ∀ (acc : MAcc), (∀ x ∈ params, (assocGet? h.tables x.1).isSome) →
      collectMutationAux h bm acc params = .ok
        { names := acc.names ++ params.flatMap (fun x => (mContribs h bm x).map (fun bu => bu.query.name))
          varDecls := acc.varDecls ++ params.flatMap (fun x => (mContribs h bm x).flatMap (fun bu => bu.query.varDecls))
          fields := acc.fields ++ params.flatMap (fun x => (mContribs h bm x).map (fun bu => bu.query.fields))
          fragments := assignList acc.fragments (params.flatMap (fun x => (mContribs h bm x).map mFragPair))
          flatSettings := acc.flatSettings ++ params.flatMap (fun x => (mContribs h bm x).map (fun bu => bu.query.flatSetting))
          varValues := assignList acc.varValues (params.flatMap (fun x => (mContribs h bm x).flatMap (fun bu => bu.varValues))) } := by
  induction params with
  | nil =>
    intro acc _
    simp [collectMutationAux, assignList]
  | cons x rest ih =>
    intro acc hall
    have hx : (assocGet? h.tables x.1).isSome := hall x (by simp)
    rw [collectMutationAux]
    cases he : assocGet? h.tables x.1 with
    | none => rw [he] at hx; cases hx
    | some t =>
      have ht : t = tblOf h x.1 := by simp [tblOf, he]
      rw [ht]
      dsimp only
      rw [foldl_stepMutation, ih _ (fun y hy => hall y (by simp [hy]))]
      simp only [mContribs, List.map_cons, List.flatMap_cons, List.map_append,
        List.flatMap_append, assignList_append, List.append_assoc, Except.ok.injEq]

theorem splitChar_ne_nil (c : Char) (l : List Char) :
    ∀ (acc : List Char), splitChar c acc l ≠ [] := by
  induction l with
  | nil =>
    intro acc
    simp [splitChar]
  | cons ch rest ih =>
    intro acc
    rw [splitChar]
    by_cases hc : ch = c
    · simp [hc]
    · simp [hc]
      exact ih (ch :: acc)

theorem jsSplit_ne_nil (s : String) (c : Char) : jsSplit s c ≠ [] := by
  unfold jsSplit
  intro h
  exact splitChar_ne_nil c s.data [] (by simpa using h)

theorem walkPath_objectFromPath (segs : List String) (v : JsValue) (hne : segs ≠ []) :
    walkPath segs (.vObj (objectFromPath [] segs v)) = .ok v := by
  induction segs with
  | nil => cases hne rfl
  | cons s rest ih =>
    cases rest with
    | nil =>
      simp [objectFromPath, assocSet, walkPath, jsGet, objGet, assocGet?]
    | cons s2 rest2 =>
      have hres := ih (by simp)
      simp only [objectFromPath, objGet, assocGet?, assocSet, walkPath, jsGet,
        Option.getD_none] at hres ⊢
      simpa using hres

theorem queryVarsSegment_nil : queryVarsSegment [] = "" := rfl

theorem mutationVarsSegment_nil : mutationVarsSegment [] = "()" := rfl

/-- C1: when `query` is called with a params object holding exactly one
table key and the default `flatOne = true`, the success result is the
value found at that table's key in the raw transport response; with two
or more table keys the success result is the whole response object, for
either value of the flag. -/
theorem c1_flattening (h : Hasura) (b : Builder) (tr : Transport) (params : Params)
    (q : String) (vars : Vars) (fs : List (String × JsValue))
    (hb : buildQuery h b "query" params = .ok (q, vars))
    (ht : tr q vars = .ok (.vObj fs)) :
    (∀ k p, params = [(k, p)] → (query h b params true tr).1 = .okResult (objGet fs k)) ∧
    (2 ≤ params.length → ∀ flatOne, (query h b params flatOne tr).1 = .okResult (.vObj fs)) := by
  constructor
  · rintro k p rfl
    simp [query, hb, ht, flattenQuery, jsGet]
  · intro hlen flatOne
    rcases params with _ | ⟨x, _ | ⟨y, rest⟩⟩
    · simp at hlen
    · simp at hlen
    · simp [query, hb, ht, flattenQuery]

/-- C1 witness: worked single-table query with default flattening. -/
theorem c1_flattening_witness :
    (query hUser simpleBuild [("user", .vNull)] true trC1).1 = .okResult (objGet c1resp "user") :=
  (c1_flattening hUser simpleBuild trC1 [("user", .vNull)] bqUser.1 bqUser.2 c1resp
    rfl rfl).1 "user" .vNull rfl

/-- C2: a params object naming a table absent from the catalog makes
`query` return the compile-stage `table NAME not found` error result,
and the execution transport is never invoked (second component
`false`). -/
theorem c2_unknown_table (h : Hasura) (b : Builder) (tr : Transport) (params : Params)
    (flatOne : Bool) (hmiss : ∃ x ∈ params, assocGet? h.tables x.1 = none) :
    ∃ name, assocGet? h.tables name = none ∧ (∃ p, (name, p) ∈ params) ∧
      query h b params flatOne tr =
        (.errResult (.error ("table " ++ name ++ " not found")), false) := by
  obtain ⟨nm, h1, h2, h3⟩ := collectQueryAux_err h b "query" params emptyQAcc hmiss
  exact ⟨nm, h1, h2, by simp [query, buildQuery, collectQuery, h3, Except.map]⟩

/-- C2 witness: querying the unknown table `ghost` against the one-table
catalog. -/
theorem c2_unknown_table_witness :
    ∃ name, assocGet? hUser.tables name = none ∧
      (∃ p, (name, p) ∈ [(("ghost" : String), JsValue.vNull)]) ∧
      query hUser simpleBuild [("ghost", .vNull)] true trC1 =
        (.errResult (.error ("table " ++ name ++ " not found")), false) :=
  c2_unknown_table hUser simpleBuild trC1 [("ghost", .vNull)] true
    ⟨("ghost", .vNull), by simp, rfl⟩

/-- C3: the remapper writes, for a flat-settings pair, the value resolved
by walking the endpoint path through the response into a fresh object at
the caller path (so the value can be read back at the caller path), and
on the worked example `mutate` turns `{insert_user: {returning: [{id:
1}]}}` into `{user: {insert: [{id: 1}]}}`. -/
theorem c3_remapping (cp ep : String) (response v : JsValue)
    (hwalk : walkPath (jsSplit ep '.') response = .ok v) :
    remap [(cp, ep)] response = .ok (.vObj (objectFromPath [] (jsSplit cp '.') v)) ∧
    walkPath (jsSplit cp '.') (.vObj (objectFromPath [] (jsSplit cp '.') v)) = .ok v ∧
    mutate hUser mbInsert [("user", .vNull)] trC3 =
      (.okResult (.vObj [("user", .vObj [("insert", .vArr [.vObj [("id", .vNum 1)]])])]), true) := by
  refine ⟨?_, ?_, rfl⟩
  · simp [remap, remapAux, hwalk, Except.map]
  · exact walkPath_objectFromPath _ v (jsSplit_ne_nil cp '.')

/-- C3 witness: the worked flat-settings pair
(user.insert, insert_user.returning) on the worked response. -/
theorem c3_remapping_witness :
    remap [("user.insert", "insert_user.returning")] respC3 =
      .ok (.vObj (objectFromPath [] (jsSplit "user.insert" '.')
        (.vArr [.vObj [("id", .vNum 1)]]))) ∧
    walkPath (jsSplit "user.insert" '.')
      (.vObj (objectFromPath [] (jsSplit "user.insert" '.')
        (.vArr [.vObj [("id", .vNum 1)]]))) = .ok (.vArr [.vObj [("id", .vNum 1)]]) ∧
    mutate hUser mbInsert [("user", .vNull)] trC3 =
      (.okResult (.vObj [("user", .vObj [("insert", .vArr [.vObj [("id", .vNum 1)]])])]), true) :=
  c3_remapping "user.insert" "insert_user.returning" respC3 (.vArr [.vObj [("id", .vNum 1)]]) rfl

/-- C4 counterexample: with the flat-settings pair
(user.insert, insert_user.returning) and transport response `{}`, the
endpoint-path walk hits `undefined` at the first segment and the second
segment read throws; `mutate` ends with the exception escaping the
method, not with an error result. -/
theorem c4_counterexample :
    mutate hUser mbInsert [("user", .vNull)] trEmptyObj =
      (.thrown (.typeError "Cannot read properties of undefined (reading returning)"), true) ∧
    ((mutate hUser mbInsert [("user", .vNull)] trEmptyObj).1).isErrResult = false :=
  ⟨rfl, rfl⟩

/-- C4 (amended): the remapping loop of `mutate` is outside the
`try/catch`; when compilation and transport succeed but resolving a
flat-settings path fails, the exception escapes `mutate` uncaught
instead of being returned as an error result. -/
theorem c4_amended_thrown (h : Hasura) (bm : MutBuilder) (params : Params) (tr : Transport)
    (q : String) (vars : Vars) (fs : List (String × String)) (resp : JsValue) (e : JsError)
    (hb : buildMutation h bm params = .ok (q, vars, fs))
    (ht : tr q vars = .ok resp)
    (hr : remap fs resp = .error e) :
    mutate h bm params tr = (.thrown e, true) := by
  simp [mutate, hb, ht, hr]

/-- C4 witness: the amended statement at the worked failing input. -/
theorem c4_amended_thrown_witness :
    mutate hUser mbInsert [("user", .vNull)] trEmptyObj =
      (.thrown (.typeError "Cannot read properties of undefined (reading returning)"), true) :=
  c4_amended_thrown hUser mbInsert [("user", .vNull)] trEmptyObj
    bmUser.1 bmUser.2.1 bmUser.2.2 (.vObj [])
    (.typeError "Cannot read properties of undefined (reading returning)") rfl rfl rfl

/-- C5 counterexample: two tables contribute fragments under the same name
`F` with texts `frag_a` then `frag_b`; the composed fragment object keeps
the later text `frag_b`, so the first occurrence's text is NOT kept. -/
theorem c5_counterexample :
    collectQuery hAB sharedFragBuild "query" [("a", .vNull), ("b", .vNull)] =
      .ok ⟨["a", "b"], [], ["a selection", "b selection"], [("F", "frag_b")], []⟩ ∧
    ("frag_b" : String) ≠ "frag_a" :=
  ⟨rfl, by decide⟩

/-- C5 (amended): in a composed document (query or mutation) the fragment
object maps each fragment name to the text of the last build contributing
that name: a later duplicate overwrites the stored text (while an
existing name keeps its position), so duplicates are dropped but the
last occurrence's text wins. -/
theorem c5_amended_last_wins (h : Hasura) (b : Builder) (bm : MutBuilder) (qt : String)
    (params mparams : Params) (nm : String)
    (hq : ∀ x ∈ params, (assocGet? h.tables x.1).isSome)
    (hm : ∀ x ∈ mparams, (assocGet? h.tables x.1).isSome) :
    (∃ acc, collectQuery h b qt params = .ok acc ∧
      assocGet? acc.fragments nm = lastLookup (params.map (qFragPair h b qt)) nm) ∧
    (∃ macc, collectMutation h bm mparams = .ok macc ∧
      assocGet? macc.fragments nm =
        lastLookup (mparams.flatMap (fun x => (mContribs h bm x).map mFragPair)) nm) := by
  constructor
  · refine ⟨_, collectQueryAux_ok h b qt params emptyQAcc hq, ?_⟩
    rw [assocGet?_assignList]
    simp [emptyQAcc, assocGet?, optOr_none_right]
  · refine ⟨_, collectMutationAux_ok h bm mparams emptyMAcc hm, ?_⟩
    rw [assocGet?_assignList]
    simp [emptyMAcc, assocGet?, optOr_none_right]

/-- C5 witness: the amended statement at the worked shared-name example
and the worked mutation example. -/
theorem c5_amended_last_wins_witness :
    (∃ acc, collectQuery hAB sharedFragBuild "query" [("a", .vNull), ("b", .vNull)] = .ok acc ∧
      assocGet? acc.fragments "F" =
        lastLookup ([("a", JsValue.vNull), ("b", JsValue.vNull)].map
          (qFragPair hAB sharedFragBuild "query")) "F") ∧
    (∃ macc, collectMutation hAB mbInsert [("a", .vNull)] = .ok macc ∧
      assocGet? macc.fragments "F" =
        lastLookup ([("a", JsValue.vNull)].flatMap
          (fun x => (mContribs hAB mbInsert x).map mFragPair)) "F") :=
  c5_amended_last_wins hAB sharedFragBuild mbInsert "query"
    [("a", .vNull), ("b", .vNull)] [("a", .vNull)] "F" (by decide) (by decide)

/-- C7: `buildQuery` processes the caller's tables in the supplied order:
the operation-name parts, the sibling root selections and the variable
declarations of the composed document appear exactly in that order. -/
theorem c7_order (h : Hasura) (b : Builder) (qt : String) (params : Params)
    (hall : ∀ x ∈ params, (assocGet? h.tables x.1).isSome) :
    ∃ acc, collectQuery h b qt params = .ok acc ∧
      acc.names = params.map (fun x => (qContrib h b qt x).query.name) ∧
      acc.fields = params.map (fun x => (qContrib h b qt x).query.fields) ∧
      acc.varDecls = params.flatMap (fun x => (qContrib h b qt x).query.varDecls) ∧
      buildQuery h b qt params = .ok (renderQuery qt acc, acc.varValues) := by
  refine ⟨_, collectQueryAux_ok h b qt params emptyQAcc hall, by simp [emptyQAcc],
    by simp [emptyQAcc], by simp [emptyQAcc], ?_⟩
  unfold buildQuery collectQuery
  rw [collectQueryAux_ok h b qt params emptyQAcc hall]
  rfl

/-- C7 witness: worked two-table query. -/
theorem c7_order_witness :
    ∃ acc, collectQuery hAB simpleBuild "query" [("a", .vNull), ("b", .vNull)] = .ok acc ∧
      acc.names = [("a", JsValue.vNull), ("b", JsValue.vNull)].map
        (fun x => (qContrib hAB simpleBuild "query" x).query.name) ∧
      acc.fields = [("a", JsValue.vNull), ("b", JsValue.vNull)].map
        (fun x => (qContrib hAB simpleBuild "query" x).query.fields) ∧
      acc.varDecls = [("a", JsValue.vNull), ("b", JsValue.vNull)].flatMap
        (fun x => (qContrib hAB simpleBuild "query" x).query.varDecls) ∧
      buildQuery hAB simpleBuild "query" [("a", .vNull), ("b", .vNull)] =
        .ok (renderQuery "query" acc, acc.varValues) :=
  c7_order hAB simpleBuild "query" [("a", .vNull), ("b", .vNull)] (by decide)

/-- C8 counterexample: after `user` is registered and its column `id`
recorded, registering `user` again leaves a fresh empty Table, not the
existing one. -/
theorem c8_counterexample :
    table hC8b "user" = .ok ⟨"user", "BASE TABLE", [("id", ⟨"integer", "int4"⟩)], []⟩ ∧
    table hC8c "user" = .ok ⟨"user", "BASE TABLE", [], []⟩ ∧
    (⟨"user", "BASE TABLE", [], []⟩ : Table) ≠
      ⟨"user", "BASE TABLE", [("id", ⟨"integer", "int4"⟩)], []⟩ :=
  ⟨rfl, rfl, by decide⟩

/-- C8 (amended): `createTable` is an unconditional overwrite: after
registering a name the catalog holds a fresh empty Table under that name,
discarding any fields or primary-key entries previously recorded there. -/
theorem c8_amended_overwrite (h : Hasura) (name ttype : String) :
    table (createTable h name ttype) name = .ok ⟨name, ttype, [], []⟩ := by
  simp [table, createTable, assocGet?_set_self]

/-- C9: when the merged variable-declaration list is empty the query
document carries no parameter list after the operation name (empty
segment), while the mutation document still carries the literal `()`. -/
theorem c9_paren_asymmetry (h : Hasura) (b : Builder) (bm : MutBuilder) (qt : String)
    (params mparams : Params) (acc : QAcc) (macc : MAcc)
    (hq : collectQuery h b qt params = .ok acc) (he : acc.varDecls = [])
    (hm : collectMutation h bm mparams = .ok macc) (hme : macc.varDecls = []) :
    buildQuery h b qt params = .ok
      ("\n            " ++ String.intercalate "\n" (assocValues acc.fragments)
        ++ "\n            " ++ qt ++ " " ++ String.intercalate "_" acc.names ++ " "
        ++ "" ++ " \x7b\n                " ++ String.intercalate "\n" acc.fields
        ++ "\n            \x7d\n        ", acc.varValues) ∧
    buildMutation h bm mparams = .ok
      ("\n            " ++ String.intercalate "\n" (assocValues macc.fragments)
        ++ "\n            mutation " ++ String.intercalate "_" macc.names ++ " "
        ++ "()" ++ " \x7b\n                " ++ String.intercalate "\n" macc.fields
        ++ "\n            \x7d\n        ", macc.varValues, macc.flatSettings) := by
  constructor
  · unfold buildQuery
    rw [hq]
    show Except.ok (renderQuery qt acc, acc.varValues) = _
    rw [renderQuery, he, queryVarsSegment_nil]
  · unfold buildMutation
    rw [hm]
    show Except.ok (renderMutation macc, macc.varValues, macc.flatSettings) = _
    rw [renderMutation, hme, mutationVarsSegment_nil]

/-- C9 witness: the worked two-table query and one-table mutation, both
with no variables. -/
theorem c9_paren_asymmetry_witness :
    buildQuery hAB simpleBuild "query" [("a", .vNull), ("b", .vNull)] = .ok
      ("\n            " ++ String.intercalate "\n" (assocValues accAB.fragments)
        ++ "\n            " ++ "query" ++ " " ++ String.intercalate "_" accAB.names ++ " "
        ++ "" ++ " \x7b\n                " ++ String.intercalate "\n" accAB.fields
        ++ "\n            \x7d\n        ", accAB.varValues) ∧
    buildMutation hAB mbInsert [("a", .vNull)] = .ok
      ("\n            " ++ String.intercalate "\n" (assocValues maccA.fragments)
        ++ "\n            mutation " ++ String.intercalate "_" maccA.names ++ " "
        ++ "()" ++ " \x7b\n                " ++ String.intercalate "\n" maccA.fields
        ++ "\n            \x7d\n        ", maccA.varValues, maccA.flatSettings) :=
  c9_paren_asymmetry hAB simpleBuild mbInsert "query"
    [("a", .vNull), ("b", .vNull)] [("a", .vNull)] accAB maccA rfl rfl rfl rfl

/-- C10: a compile failure makes `subscribe` return the one-element array
holding the error, while a successful compile returns the live
transport's unsubscribe handle, so the two return shapes differ in
kind. -/
theorem c10_subscribe_shapes {U : Type} (h : Hasura) (b : Builder) (params : Params)
    (flatOne : Bool) (wsRun : String → Vars → Option String → U) :
    ((∃ x ∈ params, assocGet? h.tables x.1 = none) →
      ∃ e, subscribe h b params flatOne wsRun = .errArray [e]) ∧
    (∀ q vars, buildQuery h b "subscription" params = .ok (q, vars) →
      subscribe h b params flatOne wsRun = .handle (wsRun q vars (flatSel params flatOne))) := by
  constructor
  · intro hmiss
    obtain ⟨nm, h1, h2, h3⟩ := collectQueryAux_err h b "subscription" params emptyQAcc hmiss
    exact ⟨.error ("table " ++ nm ++ " not found"),
      by simp [subscribe, buildQuery, collectQuery, h3, Except.map]⟩
  · intro q vars hb
    simp [subscribe, hb]

/-- C10 witness: unknown table `ghost` yields the error array; known table
`user` yields the transport handle. -/
theorem c10_subscribe_shapes_witness :
    (∃ e, subscribe hUser simpleBuild [(("ghost" : String), JsValue.vNull)] true wsRunNat =
      .errArray [e]) ∧
    subscribe hUser simpleBuild [(("user" : String), JsValue.vNull)] true wsRunNat =
      .handle (wsRunNat bqUserSub.1 bqUserSub.2 (flatSel [("user", JsValue.vNull)] true)) :=
  ⟨(c10_subscribe_shapes hUser simpleBuild [("ghost", .vNull)] true wsRunNat).1
      ⟨("ghost", .vNull), by simp, rfl⟩,
    (c10_subscribe_shapes hUser simpleBuild [("user", .vNull)] true wsRunNat).2
      bqUserSub.1 bqUserSub.2 rfl⟩

theorem dot_data : (("." : String)).data = ['\x2e'] := rfl

theorem dollar_data : (("$" : String)).data = ['$'] := rfl

theorem colon_space_data : ((": " : String)).data = [':', ' '] := rfl

theorem sep_inj_list {sep : Char} :
    ∀ {a : List Char} {c b d : List Char}, sep ∉ a → sep ∉ c →
      a ++ sep :: b = c ++ sep :: d → a = c ∧ b = d := by
  intro a
  induction a with
  | nil =>
    intro c b d _ hc he
    cases c with
    | nil =>
      simp only [List.nil_append, List.cons.injEq] at he
      exact ⟨rfl, he.2⟩
    | cons x c2 =>
      simp only [List.nil_append, List.cons_append, List.cons.injEq] at he
      exact absurd (by rw [he.1]; exact List.mem_cons_self x c2) hc
  | cons x a2 ih =>
    intro c b d ha hc he
    cases c with
    | nil =>
      simp only [List.cons_append, List.nil_append, List.cons.injEq] at he
      exact absurd (by rw [← he.1]; exact List.mem_cons_self x a2) ha
    | cons y c2 =>
      simp only [List.cons_append, List.cons.injEq] at he
      obtain ⟨hxy, hrest⟩ := he
      have ha2 : sep ∉ a2 := fun hmem => ha (List.mem_cons_of_mem x hmem)
      have hc2 : sep ∉ c2 := fun hmem => hc (List.mem_cons_of_mem y hmem)
      obtain ⟨h1, h2⟩ := ih ha2 hc2 hrest
      exact ⟨by rw [hxy, h1], h2⟩

theorem dotKey_data (t s : String) : (dotKey t s).data = t.data ++ '\x2e' :: s.data := by
  simp [dotKey, String.data_append, dot_data]

theorem dotKey_inj {t1 s1 t2 s2 : String} (h1 : sepFree '.' t1) (h2 : sepFree '.' t2)
    (he : dotKey t1 s1 = dotKey t2 s2) : t1 = t2 ∧ s1 = s2 := by
  have hd : t1.data ++ '\x2e' :: s1.data = t2.data ++ '\x2e' :: s2.data := by
    have h3 := congrArg String.data he
    rwa [dotKey_data, dotKey_data] at h3
  obtain ⟨h3, h4⟩ := sep_inj_list h1 h2 hd
  exact ⟨String.ext h3, String.ext h4⟩

theorem qDecl_data (t s : String) :
    (qDecl t s).data =
      '$' :: (t.data ++ '\x2e' :: (s.data ++ ':' :: ' ' :: (slotType s).data)) := by
  simp [qDecl, String.data_append, dotKey_data, dollar_data, colon_space_data,
    List.append_assoc]

theorem qDecl_inj {t1 s1 t2 s2 : String} (h1 : sepFree '.' t1) (h2 : sepFree '.' t2)
    (hs1 : sepFree ':' s1) (hs2 : sepFree ':' s2)
    (he : qDecl t1 s1 = qDecl t2 s2) : t1 = t2 ∧ s1 = s2 := by
  have h3 := congrArg String.data he
  rw [qDecl_data, qDecl_data] at h3
  injection h3 with _ h4
  obtain ⟨h5, h6⟩ := sep_inj_list h1 h2 h4
  obtain ⟨h7, _⟩ := sep_inj_list hs1 hs2 h6
  exact ⟨String.ext h5, String.ext h7⟩

theorem mutKey_data (t a s : String) :
    (mutKey t a s).data = t.data ++ '\x2e' :: (a.data ++ '\x2e' :: s.data) := by
  simp [mutKey, dotKey_data]

theorem mutKey_inj {t1 a1 s1 t2 a2 s2 : String}
    (h1 : sepFree '.' t1) (h2 : sepFree '.' t2)
    (ha1 : sepFree '.' a1) (ha2 : sepFree '.' a2)
    (he : mutKey t1 a1 s1 = mutKey t2 a2 s2) : t1 = t2 ∧ a1 = a2 ∧ s1 = s2 := by
  have h3 := congrArg String.data he
  rw [mutKey_data, mutKey_data] at h3
  obtain ⟨h4, h5⟩ := sep_inj_list h1 h2 h3
  obtain ⟨h6, h7⟩ := sep_inj_list ha1 ha2 h5
  exact ⟨String.ext h4, String.ext h6, String.ext h7⟩

theorem mDecl_data (t a s : String) :
    (mDecl t a s).data =
      '$' :: (t.data ++ '\x2e' :: (a.data ++ '\x2e' ::
        (s.data ++ ':' :: ' ' :: (slotType s).data))) := by
  simp [mDecl, String.data_append, mutKey_data, dollar_data, colon_space_data,
    List.append_assoc]

theorem mDecl_inj {t1 a1 s1 t2 a2 s2 : String}
    (h1 : sepFree '.' t1) (h2 : sepFree '.' t2)
    (ha1 : sepFree '.' a1) (ha2 : sepFree '.' a2)
    (hs1 : sepFree ':' s1) (hs2 : sepFree ':' s2)
    (he : mDecl t1 a1 s1 = mDecl t2 a2 s2) : t1 = t2 ∧ a1 = a2 ∧ s1 = s2 := by
  have h3 := congrArg String.data he
  rw [mDecl_data, mDecl_data] at h3
  injection h3 with _ h4
  obtain ⟨h5, h6⟩ := sep_inj_list h1 h2 h4
  obtain ⟨h7, h8⟩ := sep_inj_list ha1 ha2 h6
  obtain ⟨h9, _⟩ := sep_inj_list hs1 hs2 h8
  exact ⟨String.ext h5, String.ext h7, String.ext h9⟩

theorem argSlots_nodup : argSlots.Nodup := by decide

theorem argSlots_colon_free : ∀ s ∈ argSlots, sepFree ':' s := by decide

theorem mutActions_nodup : mutActions.Nodup := by decide

theorem mutActions_dot_free : ∀ a ∈ mutActions, sepFree '.' a := by decide

theorem actionSlots_nodup (act : String) : (actionSlots act).Nodup := by
  unfold actionSlots
  split
  · decide
  · split
    · decide
    · decide

theorem actionSlots_colon_free (act : String) : ∀ s ∈ actionSlots act, sepFree ':' s := by
  unfold actionSlots
  split
  · decide
  · split
    · decide
    · decide

theorem assocKeys_cons {α : Type} (kv : String × α) (rest : List (String × α)) :
    assocKeys (kv :: rest) = kv.1 :: assocKeys rest := rfl

theorem assocSet_append_of_not_mem {α : Type} (m : List (String × α)) (k : String) (v : α)
    (h : k ∉ assocKeys m) : assocSet m k v = m ++ [(k, v)] := by
  induction m with
  | nil => rfl
  | cons kv rest ih =>
    obtain ⟨k0, w⟩ := kv
    have h' : ¬ (k = k0 ∨ k ∈ assocKeys rest) := by simpa [assocKeys] using h
    push_neg at h'
    simp only [assocSet]
    rw [if_neg (fun hh => h'.1 hh.symm), ih h'.2]
    simp

theorem assignList_eq_append {α : Type} (l : List (String × α)) :
    ∀ (m : List (String × α)), (assocKeys l).Nodup →
      (∀ k ∈ assocKeys l, k ∉ assocKeys m) → assignList m l = m ++ l := by
  induction l with
  | nil =>
    intro m _ _
    simp [assignList]
  | cons kv rest ih =>
    intro m hn hd
    obtain ⟨k0, v0⟩ := kv
    rw [assocKeys_cons] at hn hd
    obtain ⟨hni, hn2⟩ := List.nodup_cons.mp hn
    have hk1 : (k0 : String) ∉ assocKeys m := hd k0 (List.mem_cons_self k0 _)
    rw [assignList_cons, assocSet_append_of_not_mem m k0 v0 hk1,
      ih (m ++ [(k0, v0)]) hn2 ?_]
    · simp
    · intro k hk
      have h1 : k ∉ assocKeys m := hd k (List.mem_cons_of_mem k0 hk)
      have h2 : k ≠ k0 := fun he => hni (he ▸ hk)
      rw [assocKeys, List.map_append]
      intro hmem
      rcases List.mem_append.mp hmem with hm1 | hm2
      · exact h1 hm1
      · simp at hm2
        exact h2 hm2

theorem spec_query_fragkeys_nodup (h : Hasura) (params : Params)
    (hnq : (params.map (fun x => (tblOf h x.1).name)).Nodup)
    (hfq : ∀ x ∈ params, sepFree '.' (tblOf h x.1).name) :
    (assocKeys (params.map (qFragPair h specBuild "query"))).Nodup := by
  have he : assocKeys (params.map (qFragPair h specBuild "query")) =
      (params.map (fun x => (tblOf h x.1).name)).map (fun n => dotKey n "base") := by
    rw [assocKeys, List.map_map, List.map_map]
    rfl
  rw [he]
  refine hnq.map_on ?_
  intro n1 hn1 n2 hn2 he2
  obtain ⟨x1, hx1, rfl⟩ := List.mem_map.mp hn1
  obtain ⟨x2, hx2, rfl⟩ := List.mem_map.mp hn2
  exact (dotKey_inj (hfq x1 hx1) (hfq x2 hx2) he2).1

theorem spec_query_decls_nodup (h : Hasura) (params : Params)
    (hnq : (params.map (fun x => (tblOf h x.1).name)).Nodup)
    (hfq : ∀ x ∈ params, sepFree '.' (tblOf h x.1).name) :
    (params.flatMap (fun x => (qContrib h specBuild "query" x).query.varDecls)).Nodup := by
  rw [List.nodup_flatMap]
  constructor
  · intro x hx
    show ((argSlots.filter (hasKey x.2)).map (qDecl (tblOf h x.1).name)).Nodup
    refine (argSlots_nodup.filter _).map_on ?_
    intro s1 hs1 s2 hs2 he
    exact (qDecl_inj (hfq x hx) (hfq x hx)
      (argSlots_colon_free s1 (List.mem_filter.mp hs1).1)
      (argSlots_colon_free s2 (List.mem_filter.mp hs2).1) he).2
  · have hp : params.Pairwise (fun x y => (tblOf h x.1).name ≠ (tblOf h y.1).name) :=
      List.pairwise_map.mp hnq
    refine hp.imp_of_mem ?_
    intro x y hx hy hne d hdx hdy
    obtain ⟨s1, hs1, rfl⟩ := List.mem_map.mp hdx
    obtain ⟨s2, hs2, he2⟩ := List.mem_map.mp hdy
    exact hne (qDecl_inj (hfq x hx) (hfq y hy)
      (argSlots_colon_free s1 (List.mem_filter.mp hs1).1)
      (argSlots_colon_free s2 (List.mem_filter.mp hs2).1) he2.symm).1

theorem spec_query_varkeys_nodup (h : Hasura) (params : Params)
    (hnq : (params.map (fun x => (tblOf h x.1).name)).Nodup)
    (hfq : ∀ x ∈ params, sepFree '.' (tblOf h x.1).name) :
    (assocKeys (params.flatMap (fun x => (qContrib h specBuild "query" x).varValues))).Nodup := by
  rw [assocKeys, List.map_flatMap, List.nodup_flatMap]
  constructor
  · intro x hx
    show (((argSlots.filter (hasKey x.2)).map
      (fun s => (dotKey (tblOf h x.1).name s, slotVal x.2 s))).map Prod.fst).Nodup
    rw [List.map_map]
    refine (argSlots_nodup.filter _).map_on ?_
    intro s1 hs1 s2 hs2 he
    exact (dotKey_inj (hfq x hx) (hfq x hx) he).2
  · have hp : params.Pairwise (fun x y => (tblOf h x.1).name ≠ (tblOf h y.1).name) :=
      List.pairwise_map.mp hnq
    refine hp.imp_of_mem ?_
    intro x y hx hy hne d hdx hdy
    simp only [List.mem_map] at hdx hdy
    obtain ⟨kv1, hkv1, rfl⟩ := hdx
    obtain ⟨kv2, hkv2, he2⟩ := hdy
    obtain ⟨s1, hs1, rfl⟩ := List.mem_map.mp hkv1
    obtain ⟨s2, hs2, rfl⟩ := List.mem_map.mp hkv2
    exact hne (dotKey_inj (hfq x hx) (hfq y hy) he2.symm).1


theorem mContribs_spec (h : Hasura) (x : String × JsValue) :
    mContribs h specBuildMutation x =
      (mutActions.filter (hasKey x.2)).map (fun act =>
        { query := { name := act ++ "_" ++ (tblOf h x.1).name
                     varDecls := (actionSlots act).map (mDecl (tblOf h x.1).name act)
                     fields := act ++ "_" ++ (tblOf h x.1).name ++ " returning"
                     fragment := { fragmentName := dotKey (tblOf h x.1).name act
                                   fragment := "fields of " ++ (tblOf h x.1).name }
                     flatSetting := ((tblOf h x.1).name ++ "." ++ act,
                       act ++ "_" ++ (tblOf h x.1).name ++ ".returning") }
          varValues := (actionSlots act).map
            (fun s => (mutKey (tblOf h x.1).name act s, slotVal (slotVal x.2 act) s)) }) := rfl

theorem spec_mut_fragkeys_nodup (h : Hasura) (mparams : Params)
    (hnm : (mparams.map (fun x => (tblOf h x.1).name)).Nodup)
    (hfm : ∀ x ∈ mparams, sepFree '.' (tblOf h x.1).name) :
    (assocKeys (mparams.flatMap
      (fun x => (mContribs h specBuildMutation x).map mFragPair))).Nodup := by
  rw [assocKeys, List.map_flatMap, List.nodup_flatMap]
  constructor
  · intro x hx
    rw [mContribs_spec, List.map_map, List.map_map]
    refine (mutActions_nodup.filter _).map_on ?_
    intro a1 ha1 a2 ha2 he
    exact (dotKey_inj (hfm x hx) (hfm x hx) he).2
  · have hp : mparams.Pairwise (fun x y => (tblOf h x.1).name ≠ (tblOf h y.1).name) :=
      List.pairwise_map.mp hnm
    refine hp.imp_of_mem ?_
    intro x y hx hy hne d hdx hdy
    dsimp only at hdx hdy
    rw [mContribs_spec, List.map_map, List.map_map] at hdx hdy
    obtain ⟨a1, ha1, rfl⟩ := List.mem_map.mp hdx
    obtain ⟨a2, ha2, he2⟩ := List.mem_map.mp hdy
    exact hne (dotKey_inj (hfm x hx) (hfm y hy) he2.symm).1

theorem spec_mut_decls_nodup (h : Hasura) (mparams : Params)
    (hnm : (mparams.map (fun x => (tblOf h x.1).name)).Nodup)
    (hfm : ∀ x ∈ mparams, sepFree '.' (tblOf h x.1).name) :
    (mparams.flatMap (fun x => (mContribs h specBuildMutation x).flatMap
      (fun bu => bu.query.varDecls))).Nodup := by
  rw [List.nodup_flatMap]
  constructor
  · intro x hx
    rw [mContribs_spec, List.flatMap_map, List.nodup_flatMap]
    constructor
    · intro act hact
      refine (actionSlots_nodup act).map_on ?_
      intro s1 hs1 s2 hs2 he
      exact (mDecl_inj (hfm x hx) (hfm x hx)
        (mutActions_dot_free act (List.mem_filter.mp hact).1)
        (mutActions_dot_free act (List.mem_filter.mp hact).1)
        (actionSlots_colon_free act s1 hs1) (actionSlots_colon_free act s2 hs2) he).2.2
    · have hpa : (mutActions.filter (hasKey x.2)).Pairwise (fun a1 a2 => a1 ≠ a2) :=
        mutActions_nodup.filter _
      refine hpa.imp_of_mem ?_
      intro a1 a2 ha1 ha2 hne d hd1 hd2
      obtain ⟨s1, hs1, rfl⟩ := List.mem_map.mp hd1
      obtain ⟨s2, hs2, he2⟩ := List.mem_map.mp hd2
      exact hne (mDecl_inj (hfm x hx) (hfm x hx)
        (mutActions_dot_free a1 (List.mem_filter.mp ha1).1)
        (mutActions_dot_free a2 (List.mem_filter.mp ha2).1)
        (actionSlots_colon_free a1 s1 hs1) (actionSlots_colon_free a2 s2 hs2) he2.symm).2.1
  · have hp : mparams.Pairwise (fun x y => (tblOf h x.1).name ≠ (tblOf h y.1).name) :=
      List.pairwise_map.mp hnm
    refine hp.imp_of_mem ?_
    intro x y hx hy hne d hdx hdy
    dsimp only at hdx hdy
    rw [mContribs_spec, List.flatMap_map] at hdx hdy
    obtain ⟨a1, ha1, hd1⟩ := List.mem_flatMap.mp hdx
    obtain ⟨a2, ha2, hd2⟩ := List.mem_flatMap.mp hdy
    obtain ⟨s1, hs1, rfl⟩ := List.mem_map.mp hd1
    obtain ⟨s2, hs2, he2⟩ := List.mem_map.mp hd2
    exact hne (mDecl_inj (hfm x hx) (hfm y hy)
      (mutActions_dot_free a1 (List.mem_filter.mp ha1).1)
      (mutActions_dot_free a2 (List.mem_filter.mp ha2).1)
      (actionSlots_colon_free a1 s1 hs1) (actionSlots_colon_free a2 s2 hs2) he2.symm).1

theorem spec_mut_varkeys_nodup (h : Hasura) (mparams : Params)
    (hnm : (mparams.map (fun x => (tblOf h x.1).name)).Nodup)
    (hfm : ∀ x ∈ mparams, sepFree '.' (tblOf h x.1).name) :
    (assocKeys (mparams.flatMap (fun x => (mContribs h specBuildMutation x).flatMap
      (fun bu => bu.varValues)))).Nodup := by
  rw [assocKeys, List.map_flatMap, List.nodup_flatMap]
  constructor
  · intro x hx
    rw [List.map_flatMap, mContribs_spec, List.flatMap_map]
    simp only [List.map_map]
    rw [List.nodup_flatMap]
    constructor
    · intro act hact
      refine (actionSlots_nodup act).map_on ?_
      intro s1 hs1 s2 hs2 he
      exact (mutKey_inj (hfm x hx) (hfm x hx)
        (mutActions_dot_free act (List.mem_filter.mp hact).1)
        (mutActions_dot_free act (List.mem_filter.mp hact).1) he).2.2
    · have hpa : (mutActions.filter (hasKey x.2)).Pairwise (fun a1 a2 => a1 ≠ a2) :=
        mutActions_nodup.filter _
      refine hpa.imp_of_mem ?_
      intro a1 a2 ha1 ha2 hne d hd1 hd2
      obtain ⟨s1, hs1, rfl⟩ := List.mem_map.mp hd1
      obtain ⟨s2, hs2, he2⟩ := List.mem_map.mp hd2
      exact hne (mutKey_inj (hfm x hx) (hfm x hx)
        (mutActions_dot_free a1 (List.mem_filter.mp ha1).1)
        (mutActions_dot_free a2 (List.mem_filter.mp ha2).1) he2.symm).2.1
  · have hp : mparams.Pairwise (fun x y => (tblOf h x.1).name ≠ (tblOf h y.1).name) :=
      List.pairwise_map.mp hnm
    refine hp.imp_of_mem ?_
    intro x y hx hy hne d hdx hdy
    dsimp only at hdx hdy
    rw [List.map_flatMap, mContribs_spec, List.flatMap_map] at hdx hdy
    simp only [List.map_map] at hdx hdy
    obtain ⟨a1, ha1, hd1⟩ := List.mem_flatMap.mp hdx
    obtain ⟨a2, ha2, hd2⟩ := List.mem_flatMap.mp hdy
    obtain ⟨s1, hs1, rfl⟩ := List.mem_map.mp hd1
    obtain ⟨s2, hs2, he2⟩ := List.mem_map.mp hd2
    exact hne (mutKey_inj (hfm x hx) (hfm y hy)
      (mutActions_dot_free a1 (List.mem_filter.mp ha1).1)
      (mutActions_dot_free a2 (List.mem_filter.mp ha2).1) he2.symm).1

/-- C6: with the spec-modelled per-table builders (whose naming follows
the documented collision-avoidance rule, table names being
separator-free), a composed query document and a composed mutation
document have pairwise-distinct fragment names (the fragment object
retains every contribution verbatim) and pairwise-distinct variable
declarations, and every table's variable bindings survive the
`Object.assign` merge unchanged — no table's bindings are clobbered by
another's. -/
theorem c6_uniqueness (h : Hasura) (params mparams : Params)
    (hq : ∀ x ∈ params, (assocGet? h.tables x.1).isSome)
    (hm : ∀ x ∈ mparams, (assocGet? h.tables x.1).isSome)
    (hnq : (params.map (fun x => (tblOf h x.1).name)).Nodup)
    (hnm : (mparams.map (fun x => (tblOf h x.1).name)).Nodup)
    (hfq : ∀ x ∈ params, sepFree '.' (tblOf h x.1).name)
    (hfm : ∀ x ∈ mparams, sepFree '.' (tblOf h x.1).name) :
    (∃ acc, collectQuery h specBuild "query" params = .ok acc ∧
      acc.fragments = params.map (qFragPair h specBuild "query") ∧
      (assocKeys acc.fragments).Nodup ∧
      acc.varDecls.Nodup ∧
      ∀ x ∈ params, ∀ kv ∈ (qContrib h specBuild "query" x).varValues,
        assocGet? acc.varValues kv.1 = some kv.2) ∧
    (∃ macc, collectMutation h specBuildMutation mparams = .ok macc ∧
      macc.fragments = mparams.flatMap
        (fun x => (mContribs h specBuildMutation x).map mFragPair) ∧
      (assocKeys macc.fragments).Nodup ∧
      macc.varDecls.Nodup ∧
      ∀ x ∈ mparams, ∀ bu ∈ mContribs h specBuildMutation x, ∀ kv ∈ bu.varValues,
        assocGet? macc.varValues kv.1 = some kv.2) := by
  constructor
  · have hkeys := spec_query_fragkeys_nodup h params hnq hfq
    have hfr : assignList ([] : List (String × String))
        (params.map (qFragPair h specBuild "query")) =
        params.map (qFragPair h specBuild "query") := by
      rw [assignList_eq_append _ [] hkeys (fun k _ => List.not_mem_nil k)]
      simp
    refine ⟨_, collectQueryAux_ok h specBuild "query" params emptyQAcc hq, ?_, ?_, ?_, ?_⟩
    · exact hfr
    · show (assocKeys (assignList emptyQAcc.fragments
        (params.map (qFragPair h specBuild "query")))).Nodup
      rw [show emptyQAcc.fragments = ([] : List (String × String)) from rfl, hfr]
      exact hkeys
    · exact spec_query_decls_nodup h params hnq hfq
    · intro x hx kv hkv
      show assocGet? (assignList emptyQAcc.varValues
        (params.flatMap fun x => (qContrib h specBuild "query" x).varValues)) kv.1 = some kv.2
      rw [assocGet?_assignList,
        lastLookup_of_nodup _ kv.1 kv.2 (spec_query_varkeys_nodup h params hnq hfq)
          (List.mem_flatMap.mpr ⟨x, hx, hkv⟩)]
      rfl
  · have hkeysm := spec_mut_fragkeys_nodup h mparams hnm hfm
    have hfrm : assignList ([] : List (String × String))
        (mparams.flatMap fun x => (mContribs h specBuildMutation x).map mFragPair) =
        mparams.flatMap fun x => (mContribs h specBuildMutation x).map mFragPair := by
      rw [assignList_eq_append _ [] hkeysm (fun k _ => List.not_mem_nil k)]
      simp
    refine ⟨_, collectMutationAux_ok h specBuildMutation mparams emptyMAcc hm, ?_, ?_, ?_, ?_⟩
    · exact hfrm
    · show (assocKeys (assignList emptyMAcc.fragments
        (mparams.flatMap fun x => (mContribs h specBuildMutation x).map mFragPair))).Nodup
      rw [show emptyMAcc.fragments = ([] : List (String × String)) from rfl, hfrm]
      exact hkeysm
    · exact spec_mut_decls_nodup h mparams hnm hfm
    · intro x hx bu hbu kv hkv
      show assocGet? (assignList emptyMAcc.varValues
        (mparams.flatMap fun x => (mContribs h specBuildMutation x).flatMap
          fun bu => bu.varValues)) kv.1 = some kv.2
      rw [assocGet?_assignList,
        lastLookup_of_nodup _ kv.1 kv.2 (spec_mut_varkeys_nodup h mparams hnm hfm)
          (List.mem_flatMap.mpr ⟨x, hx, List.mem_flatMap.mpr ⟨bu, hbu, hkv⟩⟩)]
      rfl

/-- C6 witness: two separator-free tables with supplied arguments and
sub-operations. -/
theorem c6_uniqueness_witness :
    (∃ acc, collectQuery hAB specBuild "query" qParamsW = .ok acc ∧
      acc.fragments = qParamsW.map (qFragPair hAB specBuild "query") ∧
      (assocKeys acc.fragments).Nodup ∧
      acc.varDecls.Nodup ∧
      ∀ x ∈ qParamsW, ∀ kv ∈ (qContrib hAB specBuild "query" x).varValues,
        assocGet? acc.varValues kv.1 = some kv.2) ∧
    (∃ macc, collectMutation hAB specBuildMutation mParamsW = .ok macc ∧
      macc.fragments = mParamsW.flatMap
        (fun x => (mContribs hAB specBuildMutation x).map mFragPair) ∧
      (assocKeys macc.fragments).Nodup ∧
      macc.varDecls.Nodup ∧
      ∀ x ∈ mParamsW, ∀ bu ∈ mContribs hAB specBuildMutation x, ∀ kv ∈ bu.varValues,
        assocGet? macc.varValues kv.1 = some kv.2) :=
  c6_uniqueness hAB qParamsW mParamsW (by decide) (by decide) (by decide) (by decide)
    (by decide) (by decide)

end HasuraOm
